import Mathlib

/-!
Shallow embedding of the gocryptfs core covered by the claims:
the reverse-mode FUSE frontend (src/internal/fusefrontend_reverse/rfs.go),
the xattr value codec exercised by the tests in src/unnamed/part_000, and
the size arithmetic of ContentEnc. Components of the repository that are
not under src (cryptocore, contentenc, nametransform, configfile) are
modelled from the spec; each such definition carries a doc comment that
says so.
-/

namespace Gocryptfs

/-! ## Bytes -/

/-- A byte string is a list of naturals; a well-formed byte string has all
entries below 256. -/
abbrev Bytes := List Nat

/-- Every entry of the byte string is below 256. -/
def isBytes (bs : Bytes) : Prop := ∀ b ∈ bs, b < 256

instance (bs : Bytes) : Decidable (isBytes bs) := by
  unfold isBytes
  infer_instance

/-- The bytes of an ASCII string, one Nat per character. -/
def strBytes (s : String) : Bytes := s.data.map Char.toNat

/-! ## AEAD value encryption

Modelled from the spec: CryptoCore content AEAD as used by XattrCodec
(sections 4.1 and 4.4). Value encryption uses a fresh 16-byte nonce, the
ciphertext has the same length as the plaintext, and the storage format is
nonce, then ciphertext, then a 16-byte tag. The cipher itself (AES-GCM or
friends) is not under src, so it is modelled as a keyed xor stream with a
keyed fold-based tag; what the claims use is only the round-trip behaviour
and the authentication check, both of which this model has. -/

/-- Nonce length in bytes (spec: nonce(16)). -/
def nonceLen : Nat := 16

/-- Tag length in bytes (spec: tag(16)). -/
def tagLen : Nat := 16

/-- Modelled from the spec: a keyed accumulator over a byte list, the basis
of the keystream and of the tag. -/
def foldAcc (init : Nat) (l : Bytes) : Nat :=
  l.foldl (fun a b => (a * 131 + b + 1) % (2 ^ 128)) init

/-- Modelled from the spec: keystream byte i for a given key and nonce. -/
def ksByte (key nonce : Bytes) (i : Nat) : Nat :=
  (foldAcc 71 (key ++ nonce) * 31 + i * 97 + 5) % 256

/-- Modelled from the spec: xor the byte list with the keystream starting
at index i. Applying the map twice gives back the input. -/
def xorStream (key nonce : Bytes) : Nat → Bytes → Bytes
  | _, [] => []
  | i, b :: bs => (b ^^^ ksByte key nonce i) :: xorStream key nonce (i + 1) bs

/-- Modelled from the spec: the 16-byte authentication tag over key, nonce
and ciphertext. -/
def macTag (key nonce ct : Bytes) : Bytes :=
  (List.range tagLen).map fun i => (foldAcc 17 (key ++ nonce ++ ct) / 256 ^ i) % 256

/-- Modelled from the spec (section 4.4): encrypt an xattr value; the
record is nonce, then ciphertext, then tag; an empty plaintext gives
nonce then tag with no payload. -/
def encryptValue (key nonce v : Bytes) : Bytes :=
  nonce ++ xorStream key nonce 0 v ++ macTag key nonce (xorStream key nonce 0 v)

/-- Modelled from the spec (sections 4.4 and 9): attempt the binary parse
when the length is at least nonce plus tag, check the tag, and decrypt.
Returns none when the record is not well formed or fails authentication. -/
def decryptValue (key record : Bytes) : Option Bytes :=
  if record.length < nonceLen + tagLen then none
  else
    let nonce := record.take nonceLen
    let rest := record.drop nonceLen
    let ct := rest.take (rest.length - tagLen)
    let tag := rest.drop (rest.length - tagLen)
    if tag = macTag key nonce ct then some (xorStream key nonce 0 ct) else none

/-! Basic lemmas about the AEAD model. -/

theorem xorStream_length (key nonce : Bytes) (i : Nat) (bs : Bytes) :
    (xorStream key nonce i bs).length = bs.length := by
  induction bs generalizing i with
  | nil => rfl
  | cons b bs ih => simp [xorStream, ih]

theorem xorStream_xorStream (key nonce : Bytes) (i : Nat) (bs : Bytes) :
    xorStream key nonce i (xorStream key nonce i bs) = bs := by
  induction bs generalizing i with
  | nil => rfl
  | cons b bs ih =>
    simp only [xorStream, ih]
    rw [Nat.xor_assoc, Nat.xor_self, Nat.xor_zero]

theorem macTag_length (key nonce ct : Bytes) : (macTag key nonce ct).length = tagLen := by
  simp [macTag]

/-- Decryption of a record assembled from a nonce of the right length, a
ciphertext and a tag of the right length reduces to the tag check. -/
theorem decryptValue_spec (key nonce ct tag : Bytes) (hn : nonce.length = nonceLen)
    (ht : tag.length = tagLen) :
    decryptValue key (nonce ++ ct ++ tag) =
      if tag = macTag key nonce ct then some (xorStream key nonce 0 ct) else none := by
  unfold decryptValue
  simp only [List.append_assoc]
  rw [List.take_left' hn, List.drop_left' hn]
  have h1 : (ct ++ tag).length - tagLen = ct.length := by simp [ht]
  rw [h1, List.take_left, List.drop_left]
  rw [if_neg (by simp only [List.length_append, hn, ht, nonceLen, tagLen]; omega)]

/-- Decrypting a freshly encrypted record with the same key gives back the
plaintext, provided the nonce has the correct length. -/
theorem decryptValue_encryptValue (key nonce v : Bytes) (h : nonce.length = nonceLen) :
    decryptValue key (encryptValue key nonce v) = some v := by
  rw [encryptValue,
    decryptValue_spec key nonce _ _ h (macTag_length key nonce (xorStream key nonce 0 v)),
    if_pos rfl, xorStream_xorStream]

/-! ## base64url without padding

Modelled from the spec: the legacy xattr storage is the base64url encoding
(RawURLEncoding, no padding) of the binary record, and encrypted names are
base64url of the name cipher output. Encoding maps each 3-byte group to 4
alphabet characters, a trailing 1-byte group to 2 characters and a trailing
2-byte group to 3 characters; decoding inverts this and rejects characters
outside the alphabet and lengths congruent to 1 mod 4. -/

/-- The base64url alphabet: sextet to ASCII code. -/
def b64Char (n : Nat) : Nat :=
  if n < 26 then 65 + n
  else if n < 52 then 97 + (n - 26)
  else if n < 62 then 48 + (n - 52)
  else if n = 62 then 45
  else 95

/-- ASCII code back to sextet; none for characters outside the alphabet. -/
def b64Val (c : Nat) : Option Nat :=
  if 65 ≤ c ∧ c ≤ 90 then some (c - 65)
  else if 97 ≤ c ∧ c ≤ 122 then some (c - 97 + 26)
  else if 48 ≤ c ∧ c ≤ 57 then some (c - 48 + 52)
  else if c = 45 then some 62
  else if c = 95 then some 63
  else none

/-- base64url encoding of a byte list, no padding. -/
def b64encode : Bytes → Bytes
  | [] => []
  | [a] => [b64Char (a / 4), b64Char (a % 4 * 16)]
  | [a, b] => [b64Char (a / 4), b64Char (a % 4 * 16 + b / 16), b64Char (b % 16 * 4)]
  | a :: b :: c :: rest =>
      b64Char (a / 4) :: b64Char (a % 4 * 16 + b / 16) :: b64Char (b % 16 * 4 + c / 64) ::
        b64Char (c % 64) :: b64encode rest

/-- base64url decoding; none on a bad character or an impossible length.
Trailing bits of a final partial group are discarded, as the Go decoder
does outside strict mode. -/
def b64decode : Bytes → Option Bytes
  | [] => some []
  | [_] => none
  | [c1, c2] =>
      match b64Val c1, b64Val c2 with
      | some v1, some v2 => some [v1 * 4 + v2 / 16]
      | _, _ => none
  | [c1, c2, c3] =>
      match b64Val c1, b64Val c2, b64Val c3 with
      | some v1, some v2, some v3 => some [v1 * 4 + v2 / 16, v2 % 16 * 16 + v3 / 4]
      | _, _, _ => none
  | c1 :: c2 :: c3 :: c4 :: rest =>
      match b64Val c1, b64Val c2, b64Val c3, b64Val c4, b64decode rest with
      | some v1, some v2, some v3, some v4, some tl =>
          some ((v1 * 4 + v2 / 16) :: (v2 % 16 * 16 + v3 / 4) :: (v3 % 4 * 64 + v4) :: tl)
      | _, _, _, _, _ => none

theorem b64Val_b64Char_fin : ∀ n : Fin 64, b64Val (b64Char n.val) = some n.val := by decide

theorem b64Val_b64Char (n : Nat) (h : n < 64) : b64Val (b64Char n) = some n :=
  b64Val_b64Char_fin ⟨n, h⟩

/-- Decoding inverts encoding on well-formed byte lists. -/
theorem b64decode_b64encode : ∀ bs : Bytes, isBytes bs → b64decode (b64encode bs) = some bs := by
  intro bs
  induction bs using b64encode.induct with
  | case1 => intro; rfl
  | case2 a =>
    intro h
    have ha : a < 256 := h a (by simp)
    simp only [b64encode, b64decode]
    rw [b64Val_b64Char _ (by omega), b64Val_b64Char _ (by omega)]
    simp only [Option.some.injEq, List.cons.injEq, eq_self_iff_true, and_true]
    omega
  | case3 a b =>
    intro h
    have ha : a < 256 := h a (by simp)
    have hb : b < 256 := h b (by simp)
    simp only [b64encode, b64decode]
    rw [b64Val_b64Char _ (by omega), b64Val_b64Char _ (by omega), b64Val_b64Char _ (by omega)]
    simp only [Option.some.injEq, List.cons.injEq, eq_self_iff_true, and_true]
    omega
  | case4 a b c rest ih =>
    intro h
    have ha : a < 256 := h a (by simp)
    have hb : b < 256 := h b (by simp)
    have hc : c < 256 := h c (by simp)
    have hrest : isBytes rest := by
      intro x hx
      exact h x (by simp [hx])
    have hd : b64decode (b64encode rest) = some rest := ih hrest
    simp only [b64encode, b64decode]
    rw [b64Val_b64Char _ (by omega), b64Val_b64Char _ (by omega),
      b64Val_b64Char _ (by omega), b64Val_b64Char _ (by omega), hd]
    simp only [Option.some.injEq, List.cons.injEq, eq_self_iff_true, and_true]
    omega

/-! ## Status codes -/

/-- FUSE status codes used in the embedding, matching the go-fuse Status
values the source returns. -/
inductive Status where
  | OK
  | ENOENT
  | ENOTDIR
  | EPERM
  | EACCES
  | EIO
  | ENODATA
  deriving DecidableEq, Repr

instance {α : Type} [DecidableEq α] : DecidableEq (Except Status α) := fun x y =>
  match x, y with
  | Except.ok a, Except.ok b =>
    match decEq a b with
    | isTrue h => isTrue (by rw [h])
    | isFalse h => isFalse (by intro hc; cases hc; exact h rfl)
  | Except.error a, Except.error b =>
    match decEq a b with
    | isTrue h => isTrue (by rw [h])
    | isFalse h => isFalse (by intro hc; cases hc; exact h rfl)
  | Except.ok _, Except.error _ => isFalse (by intro hc; cases hc)
  | Except.error _, Except.ok _ => isFalse (by intro hc; cases hc)

/-! ## XattrCodec and the per-file xattr store

The xattr codec of the repository is not under src (only its tests are, in
src/unnamed/part_000), so it is modelled from the spec, section 4.4. -/

/-- Modelled from the spec (sections 4.4 and 9): decode a stored xattr
value. The codec attempts the raw binary parse first; when that does not
yield a well-formed authentic record it attempts base64url decoding of
the bytes and retries; only when both fail is the value reported as
corrupt with an I/O error. -/
def decryptXattrValue (key stored : Bytes) : Except Status Bytes :=
  match decryptValue key stored with
  | some v => Except.ok v
  | none =>
    match b64decode stored with
    | none => Except.error Status.EIO
    | some bin =>
      match decryptValue key bin with
      | some v => Except.ok v
      | none => Except.error Status.EIO

/-- Modelled from the spec (section 4.4): the encrypted attribute name is
user.gocryptfs. followed by base64url of the deterministic name cipher
applied to the plaintext name minus its 5-byte user. head, under the
all-zero IV. -/
def encName (key : Bytes) (n : String) : Bytes :=
  strBytes "user.gocryptfs." ++
    b64encode (xorStream key (List.replicate nonceLen 0) 0 ((strBytes n).drop 5))

/-- The xattr store of one file: stored attribute names to stored values,
newest first. -/
abbrev XattrStore := List (Bytes × Bytes)

/-- Modelled from the spec (section 4.4): SetXAttr encrypts the value with
a fresh nonce and stores the record raw-binary at the encrypted name,
replacing any previous value. -/
def setXAttr (key : Bytes) (store : XattrStore) (n : String) (nonce v : Bytes) : XattrStore :=
  (encName key n, encryptValue key nonce v) :: store

/-- Modelled from the spec (section 4.4): GetXAttr looks up the encrypted
name and decodes the stored value; a missing attribute is not-found. -/
def getXAttr (key : Bytes) (store : XattrStore) (n : String) : Except Status Bytes :=
  match store.lookup (encName key n) with
  | none => Except.error Status.ENODATA
  | some stored => decryptXattrValue key stored

/-- Modelled from the spec (section 4.4): RemoveXAttr removes the value
stored at the encrypted name. -/
def removeXAttr (key : Bytes) (store : XattrStore) (n : String) : XattrStore :=
  store.filter (fun p => p.1 != encName key n)

/-- The all-zero master key; the tests mount with the zerokey option. -/
def zeroKey : Bytes := List.replicate 32 0

/-- An all-zero 16-byte nonce used in concrete witnesses. -/
def zeroNonce : Bytes := List.replicate nonceLen 0

/-- Looking up a key in a store from which that key has been removed
yields nothing. -/
theorem lookup_filter_ne (k : Bytes) (l : XattrStore) :
    (l.filter (fun p => p.1 != k)).lookup k = none := by
  induction l with
  | nil => rfl
  | cons p l ih =>
    obtain ⟨k1, v1⟩ := p
    by_cases h : k1 = k
    · simp [List.filter_cons, h, ih]
    · simp only [List.filter_cons]
      rw [if_pos (by simp [h])]
      simp only [List.lookup]
      rw [show (k == k1) = false from beq_eq_false_iff_ne.mpr (Ne.symm h)]
      exact ih

/-- C2: for every file, every xattr name with the user. head and every
byte-string value v including the empty one, GetXAttr after
SetXAttr(name, v) returns exactly v; after a subsequent RemoveXAttr(name)
the read fails with the not-found error; and a second SetXAttr overwrites,
so the read returns the latest value, which covers overwriting an empty
value with a non-empty one and vice versa. -/
theorem C2_xattr_set_get_remove (key : Bytes) (store : XattrStore) (n : String)
    (v v2 nonce nonce2 : Bytes)
    (_hpre : ∃ tail, strBytes n = strBytes "user." ++ tail)
    (h1 : nonce.length = nonceLen) (h2 : nonce2.length = nonceLen) :
    getXAttr key (setXAttr key store n nonce v) n = Except.ok v
    ∧ getXAttr key (removeXAttr key (setXAttr key store n nonce v) n) n
        = Except.error Status.ENODATA
    ∧ getXAttr key (setXAttr key (setXAttr key store n nonce v) n nonce2 v2) n
        = Except.ok v2 := by
  refine ⟨?_, ?_, ?_⟩
  · simp [getXAttr, setXAttr, List.lookup, decryptXattrValue,
      decryptValue_encryptValue key nonce v h1]
  · simp [getXAttr, removeXAttr, setXAttr, lookup_filter_ne]
  · simp [getXAttr, setXAttr, List.lookup, decryptXattrValue,
      decryptValue_encryptValue key nonce2 v2 h2]

/-- C2 witness: the scenario of the test at concrete inputs, with the
overwrite replacing a non-empty value by the empty one. -/
theorem C2_xattr_set_get_remove_witness :
    getXAttr zeroKey (setXAttr zeroKey [] "user.foo" zeroNonce (strBytes "123456789")) "user.foo"
      = Except.ok (strBytes "123456789")
    ∧ getXAttr zeroKey
        (removeXAttr zeroKey (setXAttr zeroKey [] "user.foo" zeroNonce (strBytes "123456789")) "user.foo") "user.foo"
      = Except.error Status.ENODATA
    ∧ getXAttr zeroKey
        (setXAttr zeroKey (setXAttr zeroKey [] "user.foo" zeroNonce (strBytes "123456789")) "user.foo" zeroNonce []) "user.foo"
      = Except.ok [] :=
  C2_xattr_set_get_remove zeroKey [] "user.foo" (strBytes "123456789") [] zeroNonce zeroNonce
    ⟨strBytes "foo", by decide⟩ (by decide) (by decide)

/-- C4: a stored xattr value that is the base64url encoding of a
well-formed binary record decodes to the same plaintext GetXAttr would
return if the record were stored raw: raw parsing is attempted first and,
when it does not yield a record, the decoder base64url-decodes the bytes
and retries. -/
theorem C4_base64_fallback (key record v : Bytes) (store : XattrStore) (n : String)
    (hb : isBytes record)
    (hraw : decryptValue key record = some v)
    (hfb : decryptValue key (b64encode record) = none) :
    getXAttr key ((encName key n, b64encode record) :: store) n
      = getXAttr key ((encName key n, record) :: store) n
    ∧ getXAttr key ((encName key n, record) :: store) n = Except.ok v := by
  have hdec : b64decode (b64encode record) = some record := b64decode_b64encode record hb
  constructor
  · simp [getXAttr, List.lookup, decryptXattrValue, hraw, hfb, hdec]
  · simp [getXAttr, List.lookup, decryptXattrValue, hraw]

set_option maxRecDepth 100000 in
/-- C4 witness: a concrete record under the zero key whose base64url form
is not itself a well-formed record, so the decode goes through the
fallback and agrees with raw storage. -/
theorem C4_base64_fallback_witness :
    getXAttr zeroKey
        [(encName zeroKey "user.test2", b64encode (encryptValue zeroKey zeroNonce (strBytes "123")))] "user.test2"
      = getXAttr zeroKey
        [(encName zeroKey "user.test2", encryptValue zeroKey zeroNonce (strBytes "123"))] "user.test2"
    ∧ getXAttr zeroKey
        [(encName zeroKey "user.test2", encryptValue zeroKey zeroNonce (strBytes "123"))] "user.test2"
      = Except.ok (strBytes "123") :=
  C4_base64_fallback zeroKey (encryptValue zeroKey zeroNonce (strBytes "123")) (strBytes "123")
    [] "user.test2" (by decide) (by decide) (by decide)

set_option maxRecDepth 100000 in
/-- C5: whenever both the raw binary parse and the base64url fallback
fail to produce an authentic record, the stored value decodes to an I/O
error and no plaintext bytes; in particular each of the four broken
stored-value strings of the test does so under the zero key. -/
theorem C5_broken_xattr_eio :
    (∀ key stored : Bytes, decryptValue key stored = none →
      (b64decode stored).bind (decryptValue key) = none →
      decryptXattrValue key stored = Except.error Status.EIO)
    ∧ getXAttr zeroKey [(encName zeroKey "user.test2", strBytes "111")] "user.test2"
        = Except.error Status.EIO
    ∧ getXAttr zeroKey [(encName zeroKey "user.test2", strBytes "raw-test-long-block123")] "user.test2"
        = Except.error Status.EIO
    ∧ getXAttr zeroKey [(encName zeroKey "user.test2",
          strBytes "raw-test-long-block123-xyz11111111111111111111111111111111111111")] "user.test2"
        = Except.error Status.EIO
    ∧ getXAttr zeroKey [(encName zeroKey "user.test2",
          strBytes "$$$$$$$$$$$$$$$$$$$$$$$$$$$$$$$$$$")] "user.test2"
        = Except.error Status.EIO := by
  refine ⟨?_, by decide, by decide, by decide, by decide⟩
  intro key stored h1 h2
  unfold decryptXattrValue
  rw [h1]
  cases hb : b64decode stored with
  | none => rfl
  | some bin =>
    rw [hb, Option.some_bind] at h2
    show (match decryptValue key bin with
      | some v => Except.ok v
      | none => Except.error Status.EIO) = Except.error Status.EIO
    rw [h2]

/-- C5 witness: the universally quantified part applied to the first
broken string. -/
theorem C5_broken_xattr_eio_witness :
    decryptXattrValue zeroKey (strBytes "111") = Except.error Status.EIO :=
  C5_broken_xattr_eio.1 zeroKey (strBytes "111") (by decide) (by decide)

/-! ## Reverse-mode FUSE frontend

Embeds src/internal/fusefrontend_reverse/rfs.go. Collaborators that are
not under src (configfile, nametransform, contentenc, the loopback
filesystem, decryptPath) appear either as spec-modelled constants and
functions or as explicit function arguments. -/

/-- syscall.S_IFMT. -/
def S_IFMT : Nat := 0xF000

/-- syscall.S_IFREG. -/
def S_IFREG : Nat := 0x8000

/-- syscall.S_IFDIR. -/
def S_IFDIR : Nat := 0x4000

/-- syscall.S_IXUSR: owner-execute permission bit. -/
def S_IXUSR : Nat := 0o100

/-- syscall.NAME_MAX on Linux. -/
def NAME_MAX : Nat := 255

/-- Modelled from the spec: configfile.ConfDefaultName, the config file
name at the root of a forward mount. -/
def ConfDefaultName : String := "gocryptfs.conf"

/-- Modelled from the spec: configfile.ConfReverseName, the config file
name in the plaintext directory of a reverse mount. -/
def ConfReverseName : String := ".gocryptfs.reverse.conf"

/-- Modelled from the spec: nametransform.DirIVFilename. -/
def DirIVFilename : String := "gocryptfs.diriv"

/-- Modelled from the spec: nametransform.DirIVLen, the directory IV is
16 bytes. -/
def DirIVLen : Nat := 16

/-- Modelled from the spec: nametransform.LongNameSuffix, the suffix of
the long-name sidecar files. -/
def LongNameSuffix : String := ".name"

/-- DirIVMode from rfs.go line 22: a regular file with mode 0400, i.e.
S_IFREG with the owner-read bit; the bit ranges are disjoint so the value
is written as the combined numeral, and DirIVMode_spec checks it. -/
def DirIVMode : Nat := 0x8100

/-- The mode of the virtual long-name sidecar entries in OpenDir (rfs.go
line 235): a regular file with mode 0600, written as the combined
numeral and checked by SidecarMode_spec. -/
def SidecarMode : Nat := 0x8180

theorem DirIVMode_spec : DirIVMode = S_IFREG ||| 0o400 := by decide

theorem SidecarMode_spec : SidecarMode = S_IFREG ||| 0o600 := by decide

/-- A stat result and FUSE attribute in one structure; fuse.Attr.FromStat
copies these fields across, so the embedding merges syscall.Stat_t and
fuse.Attr. Times stand for the full timestamp set. -/
structure Attr where
  mode : Nat
  size : Nat
  nlink : Nat
  ino : Nat
  dev : Nat
  atime : Nat
  mtime : Nat
  ctime : Nat
  deriving DecidableEq, Repr

/-- fuse.Attr.IsDir: the file-type bits equal S_IFDIR. -/
def Attr.isDir (a : Attr) : Bool := a.mode &&& S_IFMT == S_IFDIR

/-- os.FileMode.IsRegular and fuse.Attr.IsRegular: the file-type bits
equal S_IFREG. -/
def Attr.isRegular (a : Attr) : Bool := a.mode &&& S_IFMT == S_IFREG

/-- A directory entry as in fuse.DirEntry: mode and name. -/
structure DirEntry where
  mode : Nat
  name : String
  deriving DecidableEq, Repr

/-! Path helpers. FUSE hands the filesystem clean relative paths with no
leading or trailing slash, and the root is the empty string; filepath.Dir
and filepath.Base restricted to such inputs are the component split
below. -/

/-- Split a character list at every slash. -/
def splitSlash : List Char → List (List Char)
  | [] => [[]]
  | c :: cs =>
    let r := splitSlash cs
    if c = '/' then [] :: r
    else (c :: r.headD []) :: r.tail

/-- Rejoin components with slashes. -/
def joinSlash : List (List Char) → List Char
  | [] => []
  | [p] => p
  | p :: ps => p ++ '/' :: joinSlash ps

/-- Embeds relDir (rfs.go lines 65-71): filepath.Dir of the clean
relative path, with the FUSE root spelled as the empty string. -/
def relDir (p : String) : String :=
  let parts := splitSlash p.data
  if parts.length ≤ 1 then "" else String.mk (joinSlash parts.dropLast)

/-- filepath.Base of a clean relative path: its last component. -/
def baseName (p : String) : List Char :=
  (splitSlash p.data).getLastD []

/-- Embeds isDirIV (rfs.go lines 107-109): the path points to a
gocryptfs.diriv file. -/
def isDirIV (p : String) : Bool := baseName p == DirIVFilename.data

/-- A backing device and inode pair (devIno in the source). -/
structure DevIno where
  dev : Nat
  ino : Nat
  deriving DecidableEq, BEq, Repr

/-- The mutable reverseFS state: the dev-ino to stable-inode map and the
inode number generator. NewInoGen and inoGenT are not under src; the
generator is modelled from the spec as a counter handing out fresh
nonzero numbers, starting at 1. -/
structure RfsState where
  inoMap : List (DevIno × Nat)
  inoCnt : Nat
  deriving DecidableEq, Repr

/-- The state right after NewFS (rfs.go lines 57-58): empty map, generator
at its first value. -/
def initState : RfsState := ⟨[], 1⟩

/-- Modelled from the spec: inoGen.next hands out a fresh inode number
and advances the generator. -/
def inoNext (s : RfsState) : Nat × RfsState :=
  (s.inoCnt, ⟨s.inoMap, s.inoCnt + 1⟩)

/-- A Go map read: absent keys read as the zero value 0, exactly what
rfs.go line 132 sees before any insert. -/
def inoMapGet (m : List (DevIno × Nat)) (k : DevIno) : Nat :=
  (m.lookup k).getD 0

/-- Embeds inoAwareStat (rfs.go lines 111-144). The backing stat (rfs.abs
plus os.Lstat or os.Stat) is the lstat argument. The inode assignment is
verbatim from the source: for a regular file with more than one hard
link the map is read first, the freshly generated number is inserted when
the key was absent, and the value read BEFORE the insert is what is
stored into the returned attribute, mirroring the Go statement order. -/
def inoAwareStat (lstat : String → Except Status Attr) (s : RfsState)
    (relPlainPath : String) : Except Status Attr × RfsState :=
  match lstat relPlainPath with
  | Except.error e => (Except.error e, s)
  | Except.ok st =>
    if st.isRegular ∧ st.nlink > 1 then
      let di : DevIno := ⟨st.dev, st.ino⟩
      let stableIno := inoMapGet s.inoMap di
      let s1 := if stableIno = 0 then
          { inoMap := (di, (inoNext s).1) :: s.inoMap, inoCnt := (inoNext s).2.inoCnt }
        else s
      (Except.ok { st with ino := stableIno }, s1)
    else
      (Except.ok { st with ino := (inoNext s).1 }, (inoNext s).2)

/-- Embeds dirIVAttr (rfs.go lines 74-104): GetAttr for the virtual
gocryptfs.diriv files. decryptPath and the loopback GetAttr are function
arguments; errors from decryptPath arrive already mapped to a status as
fuse.ToStatus does. -/
def dirIVAttr (decryptPath : String → Except Status String)
    (loopGetAttr : String → Except Status Attr)
    (s : RfsState) (relPath : String) : Except Status Attr × RfsState :=
  match decryptPath (relDir relPath) with
  | Except.error e => (Except.error e, s)
  | Except.ok dir =>
    match loopGetAttr dir with
    | Except.error st => (Except.error st, s)
    | Except.ok a =>
      if a.isDir = false then (Except.error Status.ENOTDIR, s)
      else if a.mode &&& S_IXUSR = 0 then (Except.error Status.EPERM, s)
      else
        let a1 := { a with mode := DirIVMode, size := DirIVLen, nlink := 1, ino := (inoNext s).1 }
        (Except.ok a1, (inoNext s).2)

/-- Header length: 2-byte version plus 16-byte file ID. Modelled from the
spec; contentenc is not under src. -/
def HeaderLen : Nat := 18

/-- Plaintext block size (contentenc.DefaultBS). Modelled from the spec. -/
def PlainBS : Nat := 4096

/-- Ciphertext block size: plaintext block plus nonce plus tag. Modelled
from the spec. -/
def CipherBS : Nat := 4128

/-- Modelled from the spec (section 4.2, size translation):
cipher size of 0 is 0; for p greater than 0 with n the rounded-up block
count, the size is HEADER + n * CBS when p is a multiple of PBS, and
HEADER + (n-1) * CBS + (p - (n-1) * PBS) + IV + TAG otherwise. -/
def PlainSizeToCipherSize (p : Nat) : Nat :=
  if p = 0 then 0
  else
    let n := (p + PlainBS - 1) / PlainBS
    if p % PlainBS = 0 then HeaderLen + n * CipherBS
    else HeaderLen + (n - 1) * CipherBS + (p - (n - 1) * PlainBS) + nonceLen + tagLen

/-- Embeds GetAttr (rfs.go lines 147-170). isFiltered and decryptPath are
function arguments; a regular file has its size rewritten through
PlainSizeToCipherSize exactly as the source does. -/
def getAttr (decryptPath : String → Except Status String)
    (loopGetAttr : String → Except Status Attr)
    (lstat : String → Except Status Attr)
    (isFiltered : String → Bool)
    (s : RfsState) (relPath : String) : Except Status Attr × RfsState :=
  if relPath = ConfDefaultName then inoAwareStat lstat s ConfReverseName
  else if isDirIV relPath then dirIVAttr decryptPath loopGetAttr s relPath
  else if isFiltered relPath then (Except.error Status.EPERM, s)
  else
    match decryptPath relPath with
    | Except.error e => (Except.error e, s)
    | Except.ok cPath =>
      match inoAwareStat lstat s cPath with
      | (Except.error st, s1) => (Except.error st, s1)
      | (Except.ok a, s1) =>
        if a.isRegular then
          (Except.ok { a with size := PlainSizeToCipherSize a.size }, s1)
        else (Except.ok a, s1)

/-- Embeds Access (rfs.go lines 173-185): the gocryptfs.diriv check comes
first and short-circuits to OK; the filter check is next; only then are
path decryption and the backing access consulted, both abstracted as
arguments. -/
def accessOp (decryptPathAbs : String → Except Status String)
    (isFiltered : String → Bool)
    (backingAccess : String → Nat → Status)
    (relPath : String) (mode : Nat) : Status :=
  if isDirIV relPath then Status.OK
  else if isFiltered relPath then Status.EPERM
  else
    match decryptPathAbs relPath with
    | Except.error e => e
    | Except.ok absPath => backingAccess absPath mode

/-- Embeds the per-entry name translation of OpenDir (rfs.go lines
226-240): the reverse config name in the root maps to the default config
name; otherwise the plaintext name is encrypted under the directory IV,
and an encrypted name longer than NAME_MAX is replaced by the hashed long
name while contributing the virtual .name sidecar entry. encryptName and
hashLongName live in nametransform, which is not under src, so they are
function arguments. -/
def encodeEntry (encryptName : String → Bytes → String)
    (hashLongName : String → String)
    (dirIV : Bytes) (cipherPath : String) (e : DirEntry) : DirEntry × List DirEntry :=
  if cipherPath = "" ∧ e.name = ConfReverseName then
    ({ e with name := ConfDefaultName }, [])
  else
    let cName := encryptName e.name dirIV
    if cName.data.length > NAME_MAX then
      let hName := hashLongName cName
      ({ e with name := hName }, [⟨SidecarMode, hName ++ LongNameSuffix⟩])
    else ({ e with name := cName }, [])

/-- Embeds OpenDir (rfs.go lines 211-243): decrypt the ciphertext path,
list the plaintext directory, translate every entry name, and append the
virtual files, the gocryptfs.diriv entry first and then the sidecar
entries in listing order. deriveDirIV and the loopback OpenDir are
function arguments. -/
def openDir (decryptPath : String → Except Status String)
    (loopOpenDir : String → Except Status (List DirEntry))
    (deriveDirIV : String → Bytes)
    (encryptName : String → Bytes → String)
    (hashLongName : String → String)
    (cipherPath : String) : Except Status (List DirEntry) :=
  match decryptPath cipherPath with
  | Except.error e => Except.error e
  | Except.ok relPath =>
    match loopOpenDir relPath with
    | Except.error st => Except.error st
    | Except.ok entries =>
      let dirIV := deriveDirIV cipherPath
      Except.ok
        ((entries.map fun e => (encodeEntry encryptName hashLongName dirIV cipherPath e).1)
          ++ (⟨DirIVMode, DirIVFilename⟩ : DirEntry)
            :: entries.flatMap fun e => (encodeEntry encryptName hashLongName dirIV cipherPath e).2)

/-- Membership in the ok result of a directory listing. -/
def listsEntry (e : DirEntry) : Except Status (List DirEntry) → Prop
  | Except.ok l => e ∈ l
  | Except.error _ => False

/-! ## Claims about the reverse-mode frontend -/

/-- The backing stat of a regular file with two hard links, the C1
failing input: dev 5, inode 42, mode regular 0644. -/
def hardlinkStat : Attr := ⟨S_IFREG ||| 0o644, 100, 2, 42, 5, 1, 2, 3⟩

/-- C1: refuted on the source. From a fresh mount state, the first
inoAwareStat of a regular backing file with two hard links returns inode
number 0, the map value read before the insert, while the second stat of
the same backing (dev, ino) pair returns the generated number 1: two
consecutive stats of the same hardlinked file disagree, although the
source comment says the file must be given a stable inode number. -/
theorem C1_hardlink_ino_code_bug :
    (inoAwareStat (fun _ => Except.ok hardlinkStat) initState "f").1
        = Except.ok { hardlinkStat with ino := 0 }
    ∧ (inoAwareStat (fun _ => Except.ok hardlinkStat)
        (inoAwareStat (fun _ => Except.ok hardlinkStat) initState "f").2 "f").1
        = Except.ok { hardlinkStat with ino := 1 }
    ∧ ({ hardlinkStat with ino := 0 } : Attr) ≠ { hardlinkStat with ino := 1 } := by
  refine ⟨by decide, by decide, by decide⟩

/-- The size formula exactly as the claim words it: 0 for an empty file,
otherwise the 18-byte header plus one 4128-byte ciphertext block per full
4096-byte plaintext block plus remainder + 32 for a final partial
block. -/
def claimedCipherSize (p : Nat) : Nat :=
  if p = 0 then 0
  else HeaderLen + p / PlainBS * CipherBS +
    (if p % PlainBS = 0 then 0 else p % PlainBS + nonceLen + tagLen)

/-- The source size formula and the claim formula agree everywhere. -/
theorem plainSize_eq_claimed (p : Nat) : PlainSizeToCipherSize p = claimedCipherSize p := by
  unfold PlainSizeToCipherSize claimedCipherSize PlainBS CipherBS HeaderLen nonceLen tagLen
  by_cases h0 : p = 0
  · simp [h0]
  · simp only [if_neg h0]
    by_cases hm : p % 4096 = 0
    · simp only [if_pos hm]
      omega
    · simp only [if_neg hm]
      omega

/-- A successful backing stat makes inoAwareStat return the backing
attribute with only the inode number replaced, and advance the state as
the source does. -/
theorem inoAwareStat_eq_ok (lstat : String → Except Status Attr) (s : RfsState)
    (path : String) (st : Attr) (h : lstat path = Except.ok st) :
    inoAwareStat lstat s path =
      if st.isRegular ∧ st.nlink > 1 then
        (Except.ok { st with ino := inoMapGet s.inoMap ⟨st.dev, st.ino⟩ },
          if inoMapGet s.inoMap ⟨st.dev, st.ino⟩ = 0 then
            ⟨(⟨st.dev, st.ino⟩, s.inoCnt) :: s.inoMap, s.inoCnt + 1⟩ else s)
      else (Except.ok { st with ino := s.inoCnt }, ⟨s.inoMap, s.inoCnt + 1⟩) := by
  unfold inoAwareStat
  rw [h]
  rfl

/-- C3: reverse-mode GetAttr on a path that decrypts to a regular backing
file of plaintext size p succeeds and reports exactly the claimed cipher
size: 0 for p = 0, else the 18-byte header plus one 4128-byte block per
full 4096-byte plaintext block plus remainder + 32 for a final partial
block. -/
theorem C3_getattr_cipher_size (decryptPath : String → Except Status String)
    (loopGetAttr : String → Except Status Attr)
    (lstat : String → Except Status Attr) (isFiltered : String → Bool)
    (s : RfsState) (relPath cPath : String) (st : Attr)
    (h0 : relPath ≠ ConfDefaultName)
    (h1 : isDirIV relPath = false)
    (h2 : isFiltered relPath = false)
    (h3 : decryptPath relPath = Except.ok cPath)
    (h4 : lstat cPath = Except.ok st)
    (h5 : st.isRegular = true) :
    ((getAttr decryptPath loopGetAttr lstat isFiltered s relPath).1).map Attr.size
      = Except.ok (claimedCipherSize st.size) := by
  have e1 := inoAwareStat_eq_ok lstat s cPath st h4
  by_cases hc : st.isRegular ∧ st.nlink > 1
  · rw [if_pos hc] at e1
    have hreg : ({ st with ino := inoMapGet s.inoMap ⟨st.dev, st.ino⟩ } : Attr).isRegular
        = true := h5
    simp only [getAttr, if_neg h0, h1, h2, Bool.false_eq_true, if_false, h3, e1, hreg,
      if_true, Except.map, plainSize_eq_claimed]
  · rw [if_neg hc] at e1
    have hreg : ({ st with ino := s.inoCnt } : Attr).isRegular = true := h5
    simp only [getAttr, if_neg h0, h1, h2, Bool.false_eq_true, if_false, h3, e1, hreg,
      if_true, Except.map, plainSize_eq_claimed]

/-- C3 witness: a regular unique file of plaintext size 4097 bytes is
reported with the cipher size formula value, which evaluates to 4179. -/
theorem C3_getattr_cipher_size_witness :
    ((getAttr (fun _ => Except.ok "file") (fun _ => Except.error Status.EIO)
        (fun _ => Except.ok ⟨S_IFREG ||| 0o644, 4097, 1, 7, 5, 1, 2, 3⟩)
        (fun _ => false) initState "x").1).map Attr.size
      = Except.ok (claimedCipherSize 4097)
    ∧ claimedCipherSize 4097 = 4179 :=
  ⟨C3_getattr_cipher_size (fun _ => Except.ok "file") (fun _ => Except.error Status.EIO)
      (fun _ => Except.ok ⟨S_IFREG ||| 0o644, 4097, 1, 7, 5, 1, 2, 3⟩)
      (fun _ => false) initState "x" "file" ⟨S_IFREG ||| 0o644, 4097, 1, 7, 5, 1, 2, 3⟩
      (by decide) (by decide) (by decide) (by decide) (by decide) (by decide),
    by decide⟩

/-- The synthesized gocryptfs.diriv attribute: the parent attribute with
mode 0400 regular, size 16, one link and the given inode number; the
timestamps stay those of the parent. -/
def dirIVAttrOf (a : Attr) (i : Nat) : Attr :=
  { a with mode := DirIVMode, size := DirIVLen, nlink := 1, ino := i }

/-- Reduction of dirIVAttr once the parent resolved and was statted. -/
theorem dirIVAttr_eq (decryptPath : String → Except Status String)
    (loopGetAttr : String → Except Status Attr) (s : RfsState)
    (relPath dir : String) (a : Attr)
    (h1 : decryptPath (relDir relPath) = Except.ok dir)
    (h2 : loopGetAttr dir = Except.ok a) :
    dirIVAttr decryptPath loopGetAttr s relPath =
      if a.isDir = false then (Except.error Status.ENOTDIR, s)
      else if a.mode &&& S_IXUSR = 0 then (Except.error Status.EPERM, s)
      else (Except.ok (dirIVAttrOf a s.inoCnt), ⟨s.inoMap, s.inoCnt + 1⟩) := by
  simp only [dirIVAttr, h1, h2]
  rfl

/-- Reduction of openDir once the path decrypted and the backing listing
succeeded. -/
theorem openDir_eq (decryptPath : String → Except Status String)
    (loopOpenDir : String → Except Status (List DirEntry))
    (deriveDirIV : String → Bytes)
    (encryptName : String → Bytes → String) (hashLongName : String → String)
    (cipherPath plainDir : String) (entries : List DirEntry)
    (h1 : decryptPath cipherPath = Except.ok plainDir)
    (h2 : loopOpenDir plainDir = Except.ok entries) :
    openDir decryptPath loopOpenDir deriveDirIV encryptName hashLongName cipherPath
      = Except.ok
        ((entries.map
            fun x => (encodeEntry encryptName hashLongName (deriveDirIV cipherPath) cipherPath x).1)
          ++ (⟨DirIVMode, DirIVFilename⟩ : DirEntry)
            :: entries.flatMap
              fun x => (encodeEntry encryptName hashLongName (deriveDirIV cipherPath) cipherPath x).2) := by
  simp only [openDir, h1, h2]

/-- C6: for a directory whose decrypted parent exists, is a directory and
is accessible (owner-execute set), GetAttr on its gocryptfs.diriv child
returns OK with a regular-file attribute of mode 0400, size 16, link
count 1, the parent directory timestamps and the freshly generated inode
number, advancing the generator; and a successful OpenDir always lists a
gocryptfs.diriv entry. -/
theorem C6_diriv_attr_and_listing (decryptPath : String → Except Status String)
    (loopGetAttr : String → Except Status Attr)
    (lstat : String → Except Status Attr) (isFiltered : String → Bool)
    (loopOpenDir : String → Except Status (List DirEntry))
    (deriveDirIV : String → Bytes)
    (encryptName : String → Bytes → String) (hashLongName : String → String)
    (s : RfsState) (relPath dir dirPath plainDir : String) (a : Attr)
    (entries : List DirEntry)
    (h0 : relPath ≠ ConfDefaultName)
    (hiv : isDirIV relPath = true)
    (h1 : decryptPath (relDir relPath) = Except.ok dir)
    (h2 : loopGetAttr dir = Except.ok a)
    (h3 : a.isDir = true)
    (h4 : a.mode &&& S_IXUSR ≠ 0)
    (h5 : decryptPath dirPath = Except.ok plainDir)
    (h6 : loopOpenDir plainDir = Except.ok entries) :
    getAttr decryptPath loopGetAttr lstat isFiltered s relPath
      = (Except.ok (dirIVAttrOf a s.inoCnt), ⟨s.inoMap, s.inoCnt + 1⟩)
    ∧ (dirIVAttrOf a s.inoCnt).mode = S_IFREG ||| 0o400
    ∧ (dirIVAttrOf a s.inoCnt).size = 16
    ∧ (dirIVAttrOf a s.inoCnt).nlink = 1
    ∧ (dirIVAttrOf a s.inoCnt).atime = a.atime
    ∧ (dirIVAttrOf a s.inoCnt).mtime = a.mtime
    ∧ (dirIVAttrOf a s.inoCnt).ctime = a.ctime
    ∧ listsEntry ⟨DirIVMode, DirIVFilename⟩
        (openDir decryptPath loopOpenDir deriveDirIV encryptName hashLongName dirPath) := by
  refine ⟨?_, rfl, rfl, rfl, rfl, rfl, rfl, ?_⟩
  · have e1 := dirIVAttr_eq decryptPath loopGetAttr s relPath dir a h1 h2
    rw [if_neg (by simp [h3]), if_neg h4] at e1
    simp only [getAttr, if_neg h0, hiv, if_true, e1]
  · rw [openDir_eq decryptPath loopOpenDir deriveDirIV encryptName hashLongName
      dirPath plainDir entries h5 h6]
    show (⟨DirIVMode, DirIVFilename⟩ : DirEntry) ∈ _
    exact List.mem_append_right _ (List.mem_cons_self _ _)

/-- C6 witness: a concrete parent directory with owner-execute set. -/
theorem C6_diriv_attr_and_listing_witness :
    getAttr (fun _ => Except.ok "d") (fun _ => Except.ok ⟨0x41ED, 4096, 2, 9, 5, 11, 12, 13⟩)
        (fun _ => Except.error Status.EIO) (fun _ => false) initState "d/gocryptfs.diriv"
      = (Except.ok (dirIVAttrOf ⟨0x41ED, 4096, 2, 9, 5, 11, 12, 13⟩ 1), ⟨[], 2⟩)
    ∧ (dirIVAttrOf ⟨0x41ED, 4096, 2, 9, 5, 11, 12, 13⟩ 1).mode = S_IFREG ||| 0o400
    ∧ (dirIVAttrOf ⟨0x41ED, 4096, 2, 9, 5, 11, 12, 13⟩ 1).size = 16
    ∧ (dirIVAttrOf ⟨0x41ED, 4096, 2, 9, 5, 11, 12, 13⟩ 1).nlink = 1
    ∧ (dirIVAttrOf ⟨0x41ED, 4096, 2, 9, 5, 11, 12, 13⟩ 1).atime = 11
    ∧ (dirIVAttrOf ⟨0x41ED, 4096, 2, 9, 5, 11, 12, 13⟩ 1).mtime = 12
    ∧ (dirIVAttrOf ⟨0x41ED, 4096, 2, 9, 5, 11, 12, 13⟩ 1).ctime = 13
    ∧ listsEntry ⟨DirIVMode, DirIVFilename⟩
        (openDir (fun _ => Except.ok "d") (fun _ => Except.ok [⟨S_IFREG, "f"⟩])
          (fun _ => []) (fun n _ => n) (fun n => n) "d") :=
  C6_diriv_attr_and_listing (fun _ => Except.ok "d")
    (fun _ => Except.ok ⟨0x41ED, 4096, 2, 9, 5, 11, 12, 13⟩)
    (fun _ => Except.error Status.EIO) (fun _ => false)
    (fun _ => Except.ok [⟨S_IFREG, "f"⟩]) (fun _ => []) (fun n _ => n) (fun n => n)
    initState "d/gocryptfs.diriv" "d" "d" "d" ⟨0x41ED, 4096, 2, 9, 5, 11, 12, 13⟩
    [⟨S_IFREG, "f"⟩] (by decide) (by decide) (by decide) (by decide) (by decide)
    (by decide) (by decide) (by decide)

/-- C7: within a successful reverse OpenDir, a directory entry whose
encrypted name exceeds NAME_MAX appears under the hashed long name and
contributes the virtual .name sidecar entry (a regular file, mode 0600)
to the same listing, while an entry whose encrypted name fits appears
under the encrypted name itself and contributes no sidecar entry. -/
theorem C7_longname_sidecar (decryptPath : String → Except Status String)
    (loopOpenDir : String → Except Status (List DirEntry))
    (deriveDirIV : String → Bytes)
    (encryptName : String → Bytes → String) (hashLongName : String → String)
    (cipherPath plainDir : String) (entries : List DirEntry) (e : DirEntry)
    (h1 : decryptPath cipherPath = Except.ok plainDir)
    (h2 : loopOpenDir plainDir = Except.ok entries)
    (he : e ∈ entries)
    (hn : ¬(cipherPath = "" ∧ e.name = ConfReverseName)) :
    ((encryptName e.name (deriveDirIV cipherPath)).data.length > NAME_MAX →
      listsEntry { e with name := hashLongName (encryptName e.name (deriveDirIV cipherPath)) }
          (openDir decryptPath loopOpenDir deriveDirIV encryptName hashLongName cipherPath)
      ∧ listsEntry
          ⟨SidecarMode, hashLongName (encryptName e.name (deriveDirIV cipherPath)) ++ LongNameSuffix⟩
          (openDir decryptPath loopOpenDir deriveDirIV encryptName hashLongName cipherPath))
    ∧ ((encryptName e.name (deriveDirIV cipherPath)).data.length ≤ NAME_MAX →
      listsEntry { e with name := encryptName e.name (deriveDirIV cipherPath) }
          (openDir decryptPath loopOpenDir deriveDirIV encryptName hashLongName cipherPath)
      ∧ (encodeEntry encryptName hashLongName (deriveDirIV cipherPath) cipherPath e).2 = []) := by
  have hod := openDir_eq decryptPath loopOpenDir deriveDirIV encryptName hashLongName
    cipherPath plainDir entries h1 h2
  constructor
  · intro hlen
    have henc : encodeEntry encryptName hashLongName (deriveDirIV cipherPath) cipherPath e
        = ({ e with name := hashLongName (encryptName e.name (deriveDirIV cipherPath)) },
          [⟨SidecarMode,
              hashLongName (encryptName e.name (deriveDirIV cipherPath)) ++ LongNameSuffix⟩]) := by
      simp only [encodeEntry, if_neg hn, if_pos hlen]
    constructor
    · rw [hod]
      show _ ∈ _
      refine List.mem_append_left _ ?_
      have hm := List.mem_map_of_mem
        (fun x => (encodeEntry encryptName hashLongName (deriveDirIV cipherPath) cipherPath x).1) he
      simp only [henc] at hm
      exact hm
    · rw [hod]
      show _ ∈ _
      refine List.mem_append_right _ (List.mem_cons_of_mem _ ?_)
      refine List.mem_flatMap_of_mem he ?_
      rw [henc]
      exact List.mem_singleton_self _
  · intro hlen
    have henc : encodeEntry encryptName hashLongName (deriveDirIV cipherPath) cipherPath e
        = ({ e with name := encryptName e.name (deriveDirIV cipherPath) }, []) := by
      simp only [encodeEntry, if_neg hn, if_neg (Nat.not_lt.mpr hlen)]
    constructor
    · rw [hod]
      show _ ∈ _
      refine List.mem_append_left _ ?_
      have hm := List.mem_map_of_mem
        (fun x => (encodeEntry encryptName hashLongName (deriveDirIV cipherPath) cipherPath x).1) he
      simp only [henc] at hm
      exact hm
    · rw [henc]

/-- Concrete encrypted-name function for the C7 witness: the name long
encrypts to 256 characters, one more than NAME_MAX; anything else
encrypts to itself. -/
def encNameW : String → Bytes → String :=
  fun n _ => if n = "long" then String.mk (List.replicate 256 'a') else n

/-- Concrete long-name hash function for the C7 witness. -/
def hashW : String → String := fun _ => "gocryptfs.longname.h"

/-- Backing directory entries for the C7 witness. -/
def entriesW : List DirEntry := [⟨S_IFREG, "long"⟩, ⟨S_IFREG, "s"⟩]

/-- The C7 witness listing. -/
def odW : Except Status (List DirEntry) :=
  openDir (fun _ => Except.ok "p") (fun _ => Except.ok entriesW) (fun _ => [])
    encNameW hashW "d"

set_option maxRecDepth 100000 in
/-- C7 witness: in one concrete listing, the long entry appears hashed
with its sidecar and the short entry appears encrypted with no
sidecar. -/
theorem C7_longname_sidecar_witness :
    (listsEntry ⟨S_IFREG, hashW (encNameW "long" [])⟩ odW
      ∧ listsEntry ⟨SidecarMode, hashW (encNameW "long" []) ++ LongNameSuffix⟩ odW)
    ∧ (listsEntry ⟨S_IFREG, encNameW "s" []⟩ odW
      ∧ (encodeEntry encNameW hashW [] "d" ⟨S_IFREG, "s"⟩).2 = []) :=
  ⟨(C7_longname_sidecar (fun _ => Except.ok "p") (fun _ => Except.ok entriesW)
      (fun _ => []) encNameW hashW "d" "p" entriesW ⟨S_IFREG, "long"⟩
      rfl rfl (by decide) (by decide)).1 (by decide),
    (C7_longname_sidecar (fun _ => Except.ok "p") (fun _ => Except.ok entriesW)
      (fun _ => []) encNameW hashW "d" "p" entriesW ⟨S_IFREG, "s"⟩
      rfl rfl (by decide) (by decide)).2 (by decide)⟩

/-- C9: Access on any path whose last component is gocryptfs.diriv
returns OK for every requested mode, for every path filter, every path
decryption and every backing access checker: the backing filesystem and
the parent permissions are never consulted. -/
theorem C9_access_diriv (decryptPathAbs : String → Except Status String)
    (isFiltered : String → Bool) (backingAccess : String → Nat → Status)
    (relPath : String) (mode : Nat)
    (h : isDirIV relPath = true) :
    accessOp decryptPathAbs isFiltered backingAccess relPath mode = Status.OK := by
  unfold accessOp
  rw [h]
  rfl

/-- C9 witness: Access on a gocryptfs.diriv path with a filter that
rejects everything, a failing path decryption and a denying backing
access check still returns OK. -/
theorem C9_access_diriv_witness :
    accessOp (fun _ => Except.error Status.EIO) (fun _ => true)
      (fun _ _ => Status.EACCES) "foo/gocryptfs.diriv" 7 = Status.OK :=
  C9_access_diriv (fun _ => Except.error Status.EIO) (fun _ => true)
    (fun _ _ => Status.EACCES) "foo/gocryptfs.diriv" 7 (by decide)

/-- C10: the complete case analysis of GetAttr for a gocryptfs.diriv
path: a path-decryption failure and a missing parent propagate their
status; a parent that exists but is not a directory gives ENOTDIR; a
parent directory whose mode lacks the owner-execute bit gives EPERM; and
only when the parent resolves, is a directory and has owner-execute does
the call return OK with the synthesized attribute. -/
theorem C10_dirivattr_cases (decryptPath : String → Except Status String)
    (loopGetAttr : String → Except Status Attr) (s : RfsState) (relPath : String) :
    (∀ e, decryptPath (relDir relPath) = Except.error e →
      (dirIVAttr decryptPath loopGetAttr s relPath).1 = Except.error e)
    ∧ (∀ dir st, decryptPath (relDir relPath) = Except.ok dir →
        loopGetAttr dir = Except.error st →
        (dirIVAttr decryptPath loopGetAttr s relPath).1 = Except.error st)
    ∧ (∀ dir a, decryptPath (relDir relPath) = Except.ok dir →
        loopGetAttr dir = Except.ok a → a.isDir = false →
        (dirIVAttr decryptPath loopGetAttr s relPath).1 = Except.error Status.ENOTDIR)
    ∧ (∀ dir a, decryptPath (relDir relPath) = Except.ok dir →
        loopGetAttr dir = Except.ok a → a.isDir = true → a.mode &&& S_IXUSR = 0 →
        (dirIVAttr decryptPath loopGetAttr s relPath).1 = Except.error Status.EPERM)
    ∧ (∀ dir a, decryptPath (relDir relPath) = Except.ok dir →
        loopGetAttr dir = Except.ok a → a.isDir = true → a.mode &&& S_IXUSR ≠ 0 →
        (dirIVAttr decryptPath loopGetAttr s relPath).1
          = Except.ok (dirIVAttrOf a s.inoCnt)) := by
  refine ⟨?_, ?_, ?_, ?_, ?_⟩
  · intro e he
    simp only [dirIVAttr, he]
  · intro dir st hd hg
    simp only [dirIVAttr, hd, hg]
  · intro dir a hd hg hnd
    rw [dirIVAttr_eq decryptPath loopGetAttr s relPath dir a hd hg, if_pos hnd]
  · intro dir a hd hg hisd hx
    rw [dirIVAttr_eq decryptPath loopGetAttr s relPath dir a hd hg,
      if_neg (by simp [hisd]), if_pos hx]
  · intro dir a hd hg hisd hx
    rw [dirIVAttr_eq decryptPath loopGetAttr s relPath dir a hd hg,
      if_neg (by simp [hisd]), if_neg hx]

/-- C10 witness: the three interesting cases at concrete parents: a
regular-file parent gives ENOTDIR, a directory without owner-execute
gives EPERM, and an executable directory parent gives the synthesized
attribute. -/
theorem C10_dirivattr_cases_witness :
    (dirIVAttr (fun _ => Except.ok "d") (fun _ => Except.ok ⟨0x81A4, 7, 1, 4, 5, 1, 2, 3⟩)
        initState "d/gocryptfs.diriv").1 = Except.error Status.ENOTDIR
    ∧ (dirIVAttr (fun _ => Except.ok "d") (fun _ => Except.ok ⟨0x4600, 7, 1, 4, 5, 1, 2, 3⟩)
        initState "d/gocryptfs.diriv").1 = Except.error Status.EPERM
    ∧ (dirIVAttr (fun _ => Except.ok "d") (fun _ => Except.ok ⟨0x41ED, 7, 1, 4, 5, 1, 2, 3⟩)
        initState "d/gocryptfs.diriv").1
        = Except.ok (dirIVAttrOf ⟨0x41ED, 7, 1, 4, 5, 1, 2, 3⟩ 1) :=
  ⟨(C10_dirivattr_cases (fun _ => Except.ok "d")
      (fun _ => Except.ok ⟨0x81A4, 7, 1, 4, 5, 1, 2, 3⟩) initState "d/gocryptfs.diriv").2.2.1
      "d" ⟨0x81A4, 7, 1, 4, 5, 1, 2, 3⟩ rfl rfl (by decide),
    (C10_dirivattr_cases (fun _ => Except.ok "d")
      (fun _ => Except.ok ⟨0x4600, 7, 1, 4, 5, 1, 2, 3⟩) initState "d/gocryptfs.diriv").2.2.2.1
      "d" ⟨0x4600, 7, 1, 4, 5, 1, 2, 3⟩ rfl rfl (by decide) (by decide),
    (C10_dirivattr_cases (fun _ => Except.ok "d")
      (fun _ => Except.ok ⟨0x41ED, 7, 1, 4, 5, 1, 2, 3⟩) initState "d/gocryptfs.diriv").2.2.2.2
      "d" ⟨0x41ED, 7, 1, 4, 5, 1, 2, 3⟩ rfl rfl (by decide) (by decide)⟩
